import Mathlib

/-
Verification of the SceneGraph repository against its natural-language
specification.

Part 1 embeds the recent-files portion of src/ui/settings.py
(class Settings, a QSettings subclass).  The stored state relevant to the
recent-files API is the RecentFiles array of the underlying QSettings store:
`none` models the key group being absent (after `remove('RecentFiles')`),
`some l` models a stored array whose entries, in index order, are `l`
(QSettings' beginReadArray on a missing group reports size 0).

Part 2 embeds the window-layout portion of src/ui/settings.py and the module
initialization path.  Python runtime errors that these claims are about are
modelled explicitly: an UnboundLocalError is raised when a function-local
name is read before any assignment to it, and a NameError is raised when a
global name is read that is neither imported nor defined at module level.

Part 3 models the scene/graph consistency engine (Graph Model, Scene
Handler, Command Stack, derived view models).  Its code (SceneGraph.core and
the ui.handlers / ui.commands / ui.models modules re-exported by
src/ui/__init__.py) is not part of the given sources, so these definitions
are modelled from the specification's data model (section 3), component
contracts (section 4) and error taxonomy (section 7).
-/

instance {e a : Type} [DecidableEq e] [DecidableEq a] : DecidableEq (Except e a) := fun x y =>
  match x, y with
  | .ok u, .ok v =>
    if h : u = v then .isTrue (by rw [h]) else .isFalse (by intro hc; cases hc; exact h rfl)
  | .ok _, .error _ => .isFalse (by intro hc; cases hc)
  | .error _, .ok _ => .isFalse (by intro hc; cases hc)
  | .error u, .error v =>
    if h : u = v then .isTrue (by rw [h]) else .isFalse (by intro hc; cases hc; exact h rfl)

/-- State of a `Settings` object (src/ui/settings.py, lines 9-15):
`max_files` is the `_max_files` attribute set in `__init__`; `recent` is the
stored RecentFiles array. -/
structure Settings where
  max_files : Nat
  recent : Option (List String)
deriving DecidableEq, Repr

/-- The Python read loop `for i in range(cnt): ... recent_files.append(fn)`
(and the analogous append loop in the `recent_files` property): copies a
stored list by successive appends. -/
def pyListCopy (files : List String) : List String :=
  files.foldl (fun tmp f => tmp ++ [f]) []

/-- Settings.getRecentFiles (src/ui/settings.py, lines 200-211): reads the
RecentFiles array entry by entry and returns them in index order. -/
def Settings.getRecentFiles (s : Settings) : List String :=
  pyListCopy (s.recent.getD [])

/-- Settings.addRecentFile (src/ui/settings.py, lines 213-226): drops every
stored occurrence of `filename` if present, appends `filename`, and writes
the result back as the whole array. -/
def Settings.addRecentFile (s : Settings) (filename : String) : Settings :=
  let recent_files := s.getRecentFiles
  let recent_files2 :=
    if filename ∈ recent_files then recent_files.filter (fun x => x != filename)
    else recent_files
  { s with recent := some (recent_files2 ++ [filename]) }

/-- Settings.clearRecentFiles (src/ui/settings.py, lines 228-229):
`self.remove('RecentFiles')` deletes the stored group. -/
def Settings.clearRecentFiles (s : Settings) : Settings :=
  { s with recent := none }

/-- The `recent_files` property (src/ui/settings.py, lines 186-198): copies
`getRecentFiles()` in reverse iteration order and truncates to the first
`_max_files` entries (`tmp[:self._max_files]`). -/
def Settings.recent_files (s : Settings) : List String :=
  let files := s.getRecentFiles
  let tmp := pyListCopy files.reverse
  tmp.take s.max_files

/-- A sequence of `addRecentFile` calls, in call order. -/
def Settings.addRecentFiles (s : Settings) (files : List String) : Settings :=
  files.foldl Settings.addRecentFile s

/-- Python runtime errors raised by the settings module. -/
inductive PyErr
  | unboundLocalError
  | nameError
deriving DecidableEq, Repr

/-- The parent main window of a `Settings` object: its geometry blob, its
window-state blob, and its dock widgets (objectName, geometry blob), as seen
through `saveGeometry`/`restoreGeometry`/`findChildren(QtGui.QDockWidget)`.
Blobs are abstracted as natural numbers. -/
structure Parent where
  geometry : Nat
  windowState : Nat
  docks : List (String × Nat)
deriving DecidableEq, Repr

/-- Settings.window_keys (src/ui/settings.py, lines 48-62): `[]` when the
parent is None, otherwise `'MainWindow'` followed by the objectNames of the
parent's dock widgets. -/
def windowKeys (parent : Option Parent) : List String :=
  match parent with
  | none => []
  | some p => "MainWindow" :: p.docks.map (fun d => d.1)

/-- The layout-related key/value store of the QSettings file (`allKeys` is
its list of keys; `value` looks a key up). -/
def allKeys (st : List (String × Nat)) : List String := st.map (fun kv => kv.1)

/-- QSettings.value on the layout store (only read under an `in allKeys`
guard in restoreLayout, so the default is unobservable). -/
def storeValue (st : List (String × Nat)) (k : String) : Nat :=
  ((st.find? (fun kv => kv.1 == k)).map (fun kv => kv.2)).getD 0

/-- `dock[0].restoreGeometry(v)`: set the geometry of the first dock whose
objectName matches. -/
def setFirstDock : List (String × Nat) → String → Nat → List (String × Nat)
  | [], _, _ => []
  | d :: rest, nm, v => if d.1 == nm then (d.1, v) :: rest else d :: setFirstDock rest nm v

/-- One iteration of the loop in Settings.restoreLayout (src/ui/settings.py,
lines 97-119).  The accumulator carries the function-local `value` (None
while still unbound — it is only ever assigned in the MainWindow branch when
the geometry key exists) and the current parent-window state.  The dock
branch executes `dock[0].restoreGeometry(value)`, which raises
UnboundLocalError when `value` was never assigned. -/
def restoreLayoutStep (st : List (String × Nat)) (layout : String)
    (acc : Option Nat × Parent) (widget_name : String) :
    Except PyErr (Option Nat × Parent) :=
  let key_name := widget_name ++ "/geometry/" ++ layout
  if widget_name != "MainWindow" then
    let dock := acc.2.docks.filter (fun d => d.1 == widget_name)
    if dock.isEmpty then .ok acc
    else
      match acc.1 with
      | none => .error .unboundLocalError
      | some v => .ok (acc.1, { acc.2 with docks := setFirstDock acc.2.docks widget_name v })
  else
    let acc2 :=
      if (allKeys st).contains key_name then
        (some (storeValue st key_name), { acc.2 with geometry := storeValue st key_name })
      else acc
    let window_state := widget_name ++ "/windowState/" ++ layout
    if (allKeys st).contains window_state then
      .ok (acc2.1, { acc2.2 with windowState := storeValue st window_state })
    else .ok acc2

/-- Settings.restoreLayout (src/ui/settings.py, lines 97-119): iterate the
loop body over `window_keys()`; returns the possibly updated parent window,
or the Python error the loop raises. -/
def restoreLayout (st : List (String × Nat)) (parent : Option Parent)
    (layout : String) : Except PyErr (Option Parent) :=
  match parent with
  | none => .ok none
  | some p => do
    let r ← (windowKeys (some p)).foldlM (restoreLayoutStep st layout) (none, p)
    .ok (some r.2)

/-- A settings store holding one saved layout named "A" (as written by
Settings.saveLayout for a parent with one dock "dock1"). -/
def layoutStoreA : List (String × Nat) :=
  [("MainWindow/geometry/A", 11), ("MainWindow/windowState/A", 12),
   ("dock1/geometry/A", 13)]

/-- A parent window with one dock widget named "dock1". -/
def parentWithDock : Parent := { geometry := 1, windowState := 2, docks := [("dock1", 5)] }

/-- The global names defined at the top level of src/ui/settings.py
(lines 1-7): the imports `os`, `QtCore`, `QtGui`, `log`, and the class
`Settings` itself.  The name `options` is not among them. -/
def moduleGlobals : List String := ["os", "QtCore", "QtGui", "log", "Settings"]

/-- Settings.initializePreferences (src/ui/settings.py, lines 34-46): when
the 'Preferences' child group is absent it evaluates
`options.SCENEGRAPH_PREFERENCES`; looking up the global name `options` fails
with NameError because `options` is not in `moduleGlobals`.  (The `.ok`
branch for a defined `options` abstracts the preference-default writes; it is
unreachable in this module.) -/
def initPreferences (groups : List String) : Except PyErr (List String) :=
  if "Preferences" ∈ groups then .ok groups
  else if "options" ∈ moduleGlobals then .ok ("Preferences" :: groups)
  else .error .nameError

/-- Writing under a top-level group adds it to `childGroups()` if absent. -/
def addGroup (groups : List String) (g : String) : List String :=
  if g ∈ groups then groups else g :: groups

/-- The tail of Settings.initialize (src/ui/settings.py, lines 26-32): the
RecentFiles array is created empty if its group is absent, then
initializePreferences runs unconditionally. -/
def settingsInitTail (groups1 : List String) (recent : Option (List String)) :
    Except PyErr (List String × Option (List String)) :=
  match initPreferences (addGroup groups1 "RecentFiles") with
  | .error e => .error e
  | .ok gs => .ok (gs, if "RecentFiles" ∈ groups1 then recent else some [])

/-- Settings.__init__ → Settings.initialize (src/ui/settings.py, lines 9-32):
if 'MainWindow' is absent and a parent was given, default geometry keys are
written (creating the group); if 'RecentFiles' is absent, an empty array is
written (creating the group); then initializePreferences runs
unconditionally.  Returns the resulting child groups and RecentFiles array,
or the Python error raised. -/
def settingsNew (parent : Option Unit) (groups : List String)
    (recent : Option (List String)) :
    Except PyErr (List String × Option (List String)) :=
  match parent with
  | some _ => settingsInitTail (addGroup groups "MainWindow") recent
  | none => settingsInitTail groups recent

/-- Modelled from the spec: direction of a Connection (port) — section 3 of
the spec; the implementing module (SceneGraph.core / ui.node_widgets) is not
among the given sources. -/
inductive Direction
  | input
  | output
deriving DecidableEq, Repr

/-- Modelled from the spec: a Connection (port) has a name and a direction
and belongs to exactly one Node (spec section 3). -/
structure Connection where
  name : String
  direction : Direction
deriving DecidableEq, Repr

/-- Modelled from the spec: a Node has a unique identifier, a display name, a
2D position, attribute key→value pairs, and an ordered list of owned
Connections (spec section 3). -/
structure Node where
  id : Nat
  name : String
  posX : Int
  posY : Int
  attributes : List (String × String)
  connections : List Connection
deriving DecidableEq, Repr

/-- Modelled from the spec: an Edge has an identifier and references its
source and destination Connections by owning-node identifier and connection
name (spec section 3). -/
structure Edge where
  id : Nat
  src_node : Nat
  src_conn : String
  dst_node : Nat
  dst_conn : String
deriving DecidableEq, Repr

/-- Modelled from the spec: the Graph aggregate owning all Nodes and Edges
(spec section 3). -/
structure Graph where
  nodes : List Node
  edges : List Edge
deriving DecidableEq, Repr

/-- Modelled from the spec: the typed mutation failures of the Graph Model
used by the claims (spec sections 4.1 and 7). -/
inductive GraphError
  | notFound
  | duplicateIdentifier
  | danglingConnection
  | incompatibleDirection
  | inputAlreadyOccupied
deriving DecidableEq, Repr

/-- A reference to a Connection: owning node identifier plus connection
name. -/
structure ConnRef where
  node : Nat
  conn : String
deriving DecidableEq, Repr

def Graph.nodeIds (g : Graph) : List Nat := g.nodes.map (fun n => n.id)

/-- Modelled from the spec: identifier-keyed node lookup (spec section 4.1,
`getNode`). -/
def Graph.findNode (g : Graph) (nid : Nat) : Option Node :=
  g.nodes.find? (fun n => n.id == nid)

/-- An edge touches a node when either endpoint Connection belongs to it. -/
def Edge.touches (e : Edge) (nid : Nat) : Bool :=
  e.src_node == nid || e.dst_node == nid

/-- Resolve a Connection reference to the Connection it names, when its node
is live and owns a connection of that name. -/
def Graph.resolveConn (g : Graph) (r : ConnRef) : Option Connection :=
  match g.findNode r.node with
  | none => none
  | some n => n.connections.find? (fun c => c.name == r.conn)

/-- An input Connection already driven by some Edge (spec section 3: an input
Connection accepts at most one incoming Edge). -/
def Graph.inputOccupied (g : Graph) (r : ConnRef) : Bool :=
  g.edges.any (fun e => e.dst_node == r.node && e.dst_conn == r.conn)

/-- Modelled from the spec: Graph Model `addNode` (spec section 4.1) — fails
with DuplicateIdentifier when a node with that identifier is live, otherwise
appends the node. -/
def Graph.addNode (g : Graph) (n : Node) : Except GraphError Graph :=
  if g.nodes.any (fun m => m.id == n.id) then .error .duplicateIdentifier
  else .ok { g with nodes := g.nodes ++ [n] }

/-- Modelled from the spec: Graph Model `removeNode` (spec sections 3 and
4.1) — fails with NotFound for an unknown identifier; otherwise deletes the
node and cascades deletion of all Edges touching its Connections, returning
the new graph, the removed node, and the cascaded edges (the before/after
payload of the emitted events). -/
def Graph.removeNode (g : Graph) (nid : Nat) :
    Except GraphError (Graph × Node × List Edge) :=
  match g.findNode nid with
  | none => .error .notFound
  | some n =>
    .ok ({ nodes := g.nodes.filter (fun m => m.id != nid),
           edges := g.edges.filter (fun e => !(e.touches nid)) },
         n, g.edges.filter (fun e => e.touches nid))

/-- Modelled from the spec: Graph Model `addEdge` (spec sections 3, 4.1 and
7) — fails with DuplicateIdentifier on a known edge identifier, with
DanglingConnection when an endpoint does not resolve, with
IncompatibleDirection unless the source is an output and the destination an
input, and with InputAlreadyOccupied when the destination input already has
an incoming edge; otherwise appends the edge. -/
def Graph.addEdge (g : Graph) (e : Edge) : Except GraphError Graph :=
  if g.edges.any (fun e2 => e2.id == e.id) then .error .duplicateIdentifier
  else
    match g.resolveConn ⟨e.src_node, e.src_conn⟩, g.resolveConn ⟨e.dst_node, e.dst_conn⟩ with
    | none, _ => .error .danglingConnection
    | some _, none => .error .danglingConnection
    | some cs, some cd =>
      if cs.direction != Direction.output || cd.direction != Direction.input then
        .error .incompatibleDirection
      else if g.inputOccupied ⟨e.dst_node, e.dst_conn⟩ then .error .inputAlreadyOccupied
      else .ok { g with edges := g.edges ++ [e] }

/-- Modelled from the spec: Graph Model `removeEdge` (spec section 4.1) —
fails with NotFound for an unknown identifier, otherwise deletes the edge and
returns it (the before payload of the emitted event). -/
def Graph.removeEdge (g : Graph) (eid : Nat) : Except GraphError (Graph × Edge) :=
  match g.edges.find? (fun e => e.id == eid) with
  | none => .error .notFound
  | some e => .ok ({ g with edges := g.edges.filter (fun e2 => e2.id != eid) }, e)

/-- First-occurrence lookup in a node's attribute map. -/
def lookupAttr : List (String × String) → String → Option String
  | [], _ => none
  | p :: rest, k => if p.1 == k then some p.2 else lookupAttr rest k

/-- Set a key in a node's attribute map: replace the value at the first
occurrence of the key, or append a new binding. -/
def setAttrList : List (String × String) → String → String → List (String × String)
  | [], k, v => [(k, v)]
  | p :: rest, k, v => if p.1 == k then (p.1, v) :: rest else p :: setAttrList rest k v

/-- Remove a key from a node's attribute map. -/
def unsetAttrList (l : List (String × String)) (k : String) : List (String × String) :=
  l.filter (fun p => p.1 != k)

/-- Restore a key of an attribute map to a prior value: `some v` sets it
back, `none` (the key did not exist before) removes it. -/
def restoreAttrList (l : List (String × String)) (k : String) :
    Option String → List (String × String)
  | some v => setAttrList l k v
  | none => unsetAttrList l k

/-- Modelled from the spec: Graph Model `setAttribute` (spec section 4.1) —
fails with NotFound for an unknown node identifier; otherwise updates that
node's attribute and returns the prior value (the before payload of the
emitted event, which the Command captures). -/
def Graph.setAttribute (g : Graph) (nid : Nat) (k v : String) :
    Except GraphError (Graph × Option String) :=
  match g.findNode nid with
  | none => .error .notFound
  | some n =>
    .ok ({ g with nodes := g.nodes.map (fun m =>
             if m.id == nid then { m with attributes := setAttrList m.attributes k v }
             else m) },
         lookupAttr n.attributes k)

/-- Modelled from the spec: a Command captures a mutation type plus enough
state (prior values, affected identifiers) to apply and to exactly invert the
mutation (spec section 3).  A node removal carries the removed node and all
cascaded edge deletions as one undoable unit (spec sections 4.1 and 4.3). -/
inductive Command
  | nodeAdded (n : Node)
  | nodeRemoved (n : Node) (cascaded : List Edge)
  | edgeAdded (e : Edge)
  | edgeRemoved (e : Edge)
  | attrChanged (nid : Nat) (key : String) (before : Option String) (after : String)
deriving DecidableEq, Repr

/-- Modelled from the spec: the exact inverse of a Command, replayed against
the Graph Model by `undo()` (spec section 4.3: every Command's inverse must
be exact, including restoring prior attribute values and prior
Edge/Connection linkage). -/
def Command.invert : Command → Graph → Graph
  | .nodeAdded n, g =>
    { nodes := g.nodes.filter (fun m => m.id != n.id),
      edges := g.edges.filter (fun e => !(e.touches n.id)) }
  | .nodeRemoved n cascaded, g =>
    { nodes := g.nodes ++ [n], edges := g.edges ++ cascaded }
  | .edgeAdded e, g => { g with edges := g.edges.filter (fun e2 => e2.id != e.id) }
  | .edgeRemoved e, g => { g with edges := g.edges ++ [e] }
  | .attrChanged nid k before _, g =>
    { g with nodes := g.nodes.map (fun m =>
        if m.id == nid then { m with attributes := restoreAttrList m.attributes k before }
        else m) }

/-- Modelled from the spec: NodesListModel — a read-only projection of the
Graph Model keyed by node identifier with cached display fields (spec
sections 2 and 4.4). -/
def refreshNodesModel (g : Graph) : List (Nat × String) :=
  g.nodes.map (fun n => (n.id, n.name))

/-- Modelled from the spec: EdgesListModel — a read-only projection of the
Graph Model keyed by edge identifier (spec sections 2 and 4.4). -/
def refreshEdgesModel (g : Graph) : List (Nat × Nat × Nat) :=
  g.edges.map (fun e => (e.id, e.src_node, e.dst_node))

/-- Modelled from the spec: GraphTableModel — a read-only projection of the
Graph Model rows keyed by node identifier with the attribute cells (spec
sections 2 and 4.4). -/
def refreshTableModel (g : Graph) : List (Nat × List (String × String)) :=
  g.nodes.map (fun n => (n.id, n.attributes))

/-- Modelled from the spec: the state the Scene Handler mediates — the Graph
Model (single source of truth), the Command Stack's applied and
redo-available segments, and the three derived view models (spec sections 2,
4.2 and 4.3).  The applied stack holds Commands in application order, most
recent last. -/
structure SceneState where
  graph : Graph
  stack : List Command
  redo : List Command
  nodesModel : List (Nat × String)
  edgesModel : List (Nat × Nat × Nat)
  tableModel : List (Nat × List (String × String))
deriving DecidableEq, Repr

/-- Commit a successful mutation: record the Command (truncating the redo
tail) and fan the change events out to all view models (spec sections 4.2 and
4.3). -/
def SceneState.commit (s : SceneState) (g : Graph) (c : Command) : SceneState :=
  { graph := g, stack := s.stack ++ [c], redo := [],
    nodesModel := refreshNodesModel g, edgesModel := refreshEdgesModel g,
    tableModel := refreshTableModel g }

/-- Modelled from the spec: raw interaction intents the Scene Handler
translates into Graph Model calls (spec section 4.2). -/
inductive Intent
  | addNode (n : Node)
  | deleteNode (nid : Nat)
  | connect (a b : ConnRef)
  | disconnect (eid : Nat)
  | editAttr (nid : Nat) (key value : String)
deriving DecidableEq, Repr

/-- A fresh edge identifier: one past the largest live edge identifier. -/
def Graph.freshEdgeId (g : Graph) : Nat :=
  (g.edges.foldl (fun m e => max m e.id) 0) + 1

/-- Orient a validated connect-intent: the Edge always runs from the output
Connection to the input Connection (`ca` is the Connection `a` resolves
to). -/
def orientEdge (g : Graph) (ca : Connection) (a b : ConnRef) : Edge :=
  if ca.direction == Direction.output then
    ⟨g.freshEdgeId, a.node, a.conn, b.node, b.conn⟩
  else
    ⟨g.freshEdgeId, b.node, b.conn, a.node, a.conn⟩

/-- Modelled from the spec: SceneHandler.handle — validates the intent,
applies the mutation to the Graph Model, pushes the resulting Command, and
refreshes the view models; on validation failure it returns a typed error
and leaves the whole state unchanged (spec section 4.2).  For a
connect-intent it checks direction compatibility first (two outputs or two
inputs is IncompatibleDirection, spec section 7), orients the edge from the
output to the input Connection, and then checks single-input occupancy. -/
def SceneHandler.handle (s : SceneState) :
    Intent → SceneState × Except GraphError Command
  | .addNode n =>
    match s.graph.addNode n with
    | .error e => (s, .error e)
    | .ok g => (s.commit g (.nodeAdded n), .ok (.nodeAdded n))
  | .deleteNode nid =>
    match s.graph.removeNode nid with
    | .error e => (s, .error e)
    | .ok (g, n, cascaded) =>
      (s.commit g (.nodeRemoved n cascaded), .ok (.nodeRemoved n cascaded))
  | .connect a b =>
    match s.graph.resolveConn a, s.graph.resolveConn b with
    | none, _ => (s, .error .danglingConnection)
    | some _, none => (s, .error .danglingConnection)
    | some ca, some cb =>
      if ca.direction == cb.direction then (s, .error .incompatibleDirection)
      else
        match s.graph.addEdge (orientEdge s.graph ca a b) with
        | .error err => (s, .error err)
        | .ok g => (s.commit g (.edgeAdded (orientEdge s.graph ca a b)),
                    .ok (.edgeAdded (orientEdge s.graph ca a b)))
  | .disconnect eid =>
    match s.graph.removeEdge eid with
    | .error e => (s, .error e)
    | .ok (g, edge) => (s.commit g (.edgeRemoved edge), .ok (.edgeRemoved edge))
  | .editAttr nid k v =>
    match s.graph.setAttribute nid k v with
    | .error e => (s, .error e)
    | .ok (g, old) => (s.commit g (.attrChanged nid k old v), .ok (.attrChanged nid k old v))

/-- Modelled from the spec: `undo()` pops the most recent applied Command,
replays its inverse against the Graph Model, moves it to the redo side, and
fans the change events out to the view models; it is a silent no-op when the
applied segment is empty (spec section 4.3). -/
def SceneState.undo (s : SceneState) : SceneState :=
  match s.stack.getLast? with
  | none => s
  | some c =>
    { graph := c.invert s.graph, stack := s.stack.dropLast, redo := s.redo ++ [c],
      nodesModel := refreshNodesModel (c.invert s.graph),
      edgesModel := refreshEdgesModel (c.invert s.graph),
      tableModel := refreshTableModel (c.invert s.graph) }

/-- `undo()` repeated `n` times. -/
def undoN : Nat → SceneState → SceneState
  | 0, s => s
  | n + 1, s => (undoN n s).undo

/-- A sequence of user intents, each of which must be handled successfully
(and hence pushed as a Command); `none` when any of them is rejected. -/
def runIntents : SceneState → List Intent → Option SceneState
  | s, [] => some s
  | s, i :: rest =>
    match SceneHandler.handle s i with
    | (s2, Except.ok _) => runIntents s2 rest
    | (_, Except.error _) => none

/-- Well-formedness of a Graph (the referential-integrity invariant of spec
section 3, at node granularity, plus identifier uniqueness): node and edge
identifiers are pairwise distinct and every edge endpoint names a live
node. -/
@[reducible] def Graph.WF (g : Graph) : Prop :=
  (g.nodes.map (fun n => n.id)).Nodup ∧
  (g.edges.map (fun e => e.id)).Nodup ∧
  ∀ e ∈ g.edges, e.src_node ∈ g.nodeIds ∧ e.dst_node ∈ g.nodeIds

/-- A scene whose view models are consistent snapshots of its graph. -/
def sceneOf (g : Graph) : SceneState :=
  { graph := g, stack := [], redo := [],
    nodesModel := refreshNodesModel g, edgesModel := refreshEdgesModel g,
    tableModel := refreshTableModel g }

/-- Example node A with a single output port (spec section 8, property 5). -/
def nodeA : Node :=
  { id := 1, name := "A", posX := 0, posY := 0, attributes := [("size", "2")],
    connections := [{ name := "out1", direction := Direction.output }] }

/-- Example node B with a single input port (spec section 8, property 5). -/
def nodeB : Node :=
  { id := 2, name := "B", posX := 3, posY := 1, attributes := [],
    connections := [{ name := "in1", direction := Direction.input }] }

/-- Example node C with one output and one input port. -/
def nodeC : Node :=
  { id := 3, name := "C", posX := 5, posY := 2, attributes := [("color", "red")],
    connections := [{ name := "out1", direction := Direction.output },
                    { name := "in1", direction := Direction.input }] }

/-- The concrete mutation sequence of spec section 8, property 5: add A, add
B, connect A.out1→B.in1, then edit an attribute. -/
def exIntents : List Intent :=
  [Intent.addNode nodeA, Intent.addNode nodeB,
   Intent.connect ⟨1, "out1"⟩ ⟨2, "in1"⟩,
   Intent.editAttr 1 "size" "7"]

/-- The scene reached by handling `exIntents` from the empty scene. -/
def exScene : SceneState :=
  (runIntents (sceneOf { nodes := [], edges := [] }) exIntents).getD
    (sceneOf { nodes := [], edges := [] })

/-- A concrete graph: A and C, with the edge 7 : A.out1→C.in1, and B
unconnected. -/
def exGraph7 : Graph :=
  { nodes := [nodeA, nodeB, nodeC],
    edges := [{ id := 7, src_node := 1, src_conn := "out1",
                dst_node := 3, dst_conn := "in1" }] }

/-- Handling a delete of node A on `sceneOf exGraph7`. -/
def exRemove : SceneState × Except GraphError Command :=
  SceneHandler.handle (sceneOf exGraph7) (Intent.deleteNode 1)

/-- The scene after the delete of node A. -/
def exScene7 : SceneState := exRemove.1

/-- The single Command pushed by the delete of node A. -/
def exCmd7 : Command :=
  match exRemove.2 with
  | .ok c => c
  | .error _ => Command.nodeAdded nodeA

/-- A scene used to exercise the connect validation: A and C both expose
output ports. -/
def exSceneOutputs : SceneState := sceneOf { nodes := [nodeA, nodeC], edges := [] }

/-
Theorems.  First the list-level helpers, then the claims about
src/ui/settings.py, then the claims about the scene/graph consistency
engine.
-/

theorem pyListCopy_aux (l acc : List String) :
    l.foldl (fun tmp f => tmp ++ [f]) acc = acc ++ l := by
  induction l generalizing acc with
  | nil => simp
  | cons a t ih => simp [List.foldl_cons, ih]

theorem pyListCopy_eq (l : List String) : pyListCopy l = l := by
  simp [pyListCopy, pyListCopy_aux]

theorem getRecentFiles_eq (s : Settings) : s.getRecentFiles = s.recent.getD [] := by
  simp [Settings.getRecentFiles, pyListCopy_eq]

theorem filter_bne_of_not_mem (l : List String) (p : String) (h : p ∉ l) :
    l.filter (fun x => x != p) = l := by
  apply List.filter_eq_self.mpr
  intro a ha
  simp only [bne_iff_ne, ne_eq]
  intro e
  exact h (e ▸ ha)

theorem addRecentFile_eq (s : Settings) (p : String) :
    (s.addRecentFile p).getRecentFiles
      = s.getRecentFiles.filter (fun x => x != p) ++ [p] := by
  have hbase : (s.addRecentFile p).getRecentFiles
      = (if p ∈ s.getRecentFiles then s.getRecentFiles.filter (fun x => x != p)
         else s.getRecentFiles) ++ [p] := by
    rw [getRecentFiles_eq]
    rfl
  rw [hbase]
  by_cases hm : p ∈ s.getRecentFiles
  · rw [if_pos hm]
  · rw [if_neg hm, filter_bne_of_not_mem _ _ hm]

theorem filter_bne_idem (l : List String) (p : String) :
    (l.filter (fun x => x != p)).filter (fun x => x != p)
      = l.filter (fun x => x != p) := by
  apply List.filter_eq_self.mpr
  intro a ha
  exact (List.mem_filter.mp ha).2

/-- C4: for every recent-files state and path `p`, after `addRecentFile p` the
stored sequence contains `p` exactly once, `p` is the last element, and the
subsequence of entries different from `p` is unchanged (an already-present
path is moved to the most-recent position, not duplicated). -/
theorem addRecentFile_mru (s : Settings) (p : String) :
    ((s.addRecentFile p).getRecentFiles.count p = 1) ∧
    ((s.addRecentFile p).getRecentFiles.getLast? = some p) ∧
    ((s.addRecentFile p).getRecentFiles.filter (fun x => x != p)
      = s.getRecentFiles.filter (fun x => x != p)) := by
  refine ⟨?_, ?_, ?_⟩
  · rw [addRecentFile_eq, List.count_append]
    have h0 : (s.getRecentFiles.filter (fun x => x != p)).count p = 0 := by
      rw [List.count_eq_zero]
      intro hmem
      have hb := (List.mem_filter.mp hmem).2
      simp at hb
    simp [h0, List.count_cons]
  · rw [addRecentFile_eq]
    exact List.getLast?_concat _
  · rw [addRecentFile_eq, List.filter_append, filter_bne_idem]
    simp

/-- Helper for C5: adding a list of files none of which is already stored, with
no duplicates among them, appends them in call order. -/
theorem addRecentFiles_append (files : List String) :
    ∀ s : Settings, files.Nodup → (∀ x ∈ files, x ∉ s.getRecentFiles) →
      (s.addRecentFiles files).getRecentFiles = s.getRecentFiles ++ files := by
  induction files with
  | nil =>
    intro s _ _
    simp [Settings.addRecentFiles]
  | cons f fs ih =>
    intro s hnd hdisj
    have hstep : (s.addRecentFile f).getRecentFiles = s.getRecentFiles ++ [f] := by
      rw [addRecentFile_eq, filter_bne_of_not_mem _ _ (hdisj f (by simp))]
    have hdisj2 : ∀ x ∈ fs, x ∉ (s.addRecentFile f).getRecentFiles := by
      intro x hx
      rw [hstep]
      intro hmem
      rcases List.mem_append.mp hmem with hL | hR
      · exact hdisj x (List.mem_cons_of_mem f hx) hL
      · have hxf : x = f := by simpa using hR
        exact (List.nodup_cons.mp hnd).1 (hxf ▸ hx)
    have htail := ih (s.addRecentFile f) (List.Nodup.of_cons hnd) hdisj2
    calc (s.addRecentFiles (f :: fs)).getRecentFiles
        = ((s.addRecentFile f).addRecentFiles fs).getRecentFiles := rfl
      _ = (s.addRecentFile f).getRecentFiles ++ fs := htail
      _ = s.getRecentFiles ++ (f :: fs) := by rw [hstep]; simp

/-- C5: for every sequence of `addRecentFile` calls with pairwise-distinct
paths, starting from the freshly initialized (empty) RecentFiles array,
`getRecentFiles` returns exactly those paths in call order, most recently
added last. -/
theorem getRecentFiles_ordered (N : Nat) (files : List String)
    (h : files.Nodup) :
    ((Settings.mk N (some [])).addRecentFiles files).getRecentFiles = files := by
  have hempty : (Settings.mk N (some [])).getRecentFiles = [] := by
    rw [getRecentFiles_eq]
    rfl
  have := addRecentFiles_append files (Settings.mk N (some [])) h
    (by intro x _; rw [hempty]; simp)
  rw [hempty] at this
  simpa using this

theorem getRecentFiles_ordered_witness :
    (["a", "b", "c"] : List String).Nodup ∧
    ((Settings.mk 10 (some [])).addRecentFiles ["a", "b", "c"]).getRecentFiles
      = ["a", "b", "c"] :=
  ⟨by decide, getRecentFiles_ordered 10 ["a", "b", "c"] (by decide)⟩

/-- C1 counterexample: a `Settings` constructed with maximum size 1 whose
RecentFiles array is initially empty; after two `addRecentFile` calls,
`getRecentFiles` has length 2 > 1 (the code never truncates the stored
array to `_max_files`). -/
theorem getRecentFiles_cap_counterexample :
    ¬ ((((Settings.mk 1 (some [])).addRecentFile "a").addRecentFile
        "b").getRecentFiles.length ≤ 1) := by
  decide

theorem addRecentFiles_max_files (files : List String) :
    ∀ s : Settings, (s.addRecentFiles files).max_files = s.max_files := by
  induction files with
  | nil => intro s; rfl
  | cons f fs ih => intro s; exact ih (s.addRecentFile f)

/-- C1 amended: for every `Settings` and every sequence of `addRecentFile`
calls, the sequence returned by the `recent_files` property never has length
greater than `max_files` (`getRecentFiles` itself returns the whole stored
array, which can exceed `max_files`). -/
theorem recent_files_le_max (s : Settings) (files : List String) :
    ((s.addRecentFiles files).recent_files).length ≤ s.max_files := by
  have h := addRecentFiles_max_files files s
  unfold Settings.recent_files
  rw [h, List.length_take]
  exact Nat.min_le_left _ _

/-- C9: the `recent_files` property equals the reverse of `getRecentFiles()`
truncated to the first `max_files` elements, and its length never exceeds
`max_files`, even when the stored list is longer. -/
theorem recent_files_spec (s : Settings) :
    s.recent_files = s.getRecentFiles.reverse.take s.max_files ∧
    s.recent_files.length ≤ s.max_files := by
  constructor
  · simp only [Settings.recent_files, pyListCopy_eq]
  · simp only [Settings.recent_files, pyListCopy_eq, List.length_take]
    exact Nat.min_le_left _ _

/-- C10: after `clearRecentFiles` (which removes the stored RecentFiles
group), `getRecentFiles` reads an array of size 0, i.e. the empty sequence. -/
theorem clearRecentFiles_empty (s : Settings) :
    (s.clearRecentFiles).getRecentFiles = [] := rfl

/-- C2 (code bug): restoring the never-saved layout name "B" from a store
that only holds layout "A", with a parent owning one dock widget, raises
UnboundLocalError: the MainWindow branch never assigns the local `value`
(both "MainWindow/geometry/B" and "MainWindow/windowState/B" are absent) and
the dock branch then reads `value` unconditionally. -/
theorem restoreLayout_missing_layout_raises :
    restoreLayout layoutStoreA (some parentWithDock) "B"
      = Except.error PyErr.unboundLocalError := by
  decide

theorem not_mem_addGroup (groups : List String) (g a : String)
    (hne : a ≠ g) (h : a ∉ groups) : a ∉ addGroup groups g := by
  unfold addGroup
  by_cases hg : g ∈ groups
  · rw [if_pos hg]; exact h
  · rw [if_neg hg]
    intro hmem
    rcases List.mem_cons.mp hmem with he | ht
    · exact hne he
    · exact h ht

theorem settingsInitTail_missing_preferences (groups1 : List String)
    (recent : Option (List String)) (h : "Preferences" ∉ groups1) :
    settingsInitTail groups1 recent = Except.error PyErr.nameError := by
  have h2 : "Preferences" ∉ addGroup groups1 "RecentFiles" :=
    not_mem_addGroup groups1 "RecentFiles" "Preferences" (by decide) h
  unfold settingsInitTail initPreferences
  rw [if_neg h2, if_neg (by decide : ¬ ("options" ∈ moduleGlobals))]

/-- C8: constructing a `Settings` on a stored state with no 'Preferences'
child group (in particular on a fresh settings file) raises an unhandled
NameError, because `initialize` always calls `initializePreferences`, which
reads the global name `options` that the module never imports or defines. -/
theorem settingsNew_missing_preferences_raises (parent : Option Unit)
    (groups : List String) (recent : Option (List String))
    (h : "Preferences" ∉ groups) :
    settingsNew parent groups recent = Except.error PyErr.nameError := by
  cases parent with
  | none => exact settingsInitTail_missing_preferences groups recent h
  | some u =>
    exact settingsInitTail_missing_preferences _ recent
      (not_mem_addGroup groups "MainWindow" "Preferences" (by decide) h)

theorem settingsNew_missing_preferences_raises_witness :
    ("Preferences" ∉ ([] : List String)) ∧
    settingsNew none [] none = Except.error PyErr.nameError :=
  ⟨by decide, settingsNew_missing_preferences_raises none [] none (by decide)⟩

theorem map_id_of_mem {α : Type} (l : List α) (f : α → α) (h : ∀ a ∈ l, f a = a) :
    l.map f = l := by
  induction l with
  | nil => rfl
  | cons a t ih =>
    rw [List.map_cons, h a (by simp), ih (fun b hb => h b (by simp [hb]))]

theorem map_comp_eq_of_mem {α β : Type} (l : List α) (f : α → α) (g : α → β)
    (h : ∀ a ∈ l, g (f a) = g a) : (l.map f).map g = l.map g := by
  induction l with
  | nil => rfl
  | cons a t ih =>
    rw [List.map_cons, List.map_cons, List.map_cons, h a (by simp),
      ih (fun b hb => h b (by simp [hb]))]

theorem perm_cons_filter_of_mem {α : Type} (f : α → Nat) :
    ∀ (l : List α) (a : α), a ∈ l → (l.map f).Nodup →
      l.Perm (a :: l.filter (fun x => f x != f a)) := by
  intro l
  induction l with
  | nil => intro a ha; cases ha
  | cons b t ih =>
    intro a ha hnd
    have hfb : f b ∉ t.map f := (List.nodup_cons.mp (by simpa using hnd)).1
    rcases List.mem_cons.mp ha with hba | hat
    · subst hba
      have ht : t.filter (fun x => f x != f a) = t := by
        apply List.filter_eq_self.mpr
        intro x hx
        simp only [bne_iff_ne, ne_eq]
        intro he
        exact hfb (he ▸ List.mem_map_of_mem f hx)
      simp [List.filter_cons, ht]
    · have hfba : (f b != f a) = true := by
        simp only [bne_iff_ne, ne_eq]
        intro he
        exact hfb (by rw [he]; exact List.mem_map_of_mem f hat)
      have ih2 := ih a hat (List.nodup_cons.mp (by simpa using hnd)).2
      rw [List.filter_cons, if_pos hfba]
      exact (List.Perm.cons b ih2).trans (List.Perm.swap a b _)

theorem filter_not_append_filter_perm {α : Type} (p : α → Bool) (l : List α) :
    (l.filter (fun x => !(p x)) ++ l.filter p).Perm l := by
  induction l with
  | nil => simp
  | cons a t ih =>
    by_cases hp : p a = true
    · rw [List.filter_cons, List.filter_cons, hp]
      simp only [Bool.not_true, if_false, if_true]
      exact (List.perm_middle).trans (List.Perm.cons a ih)
    · have hp2 : p a = false := by
        cases hq : p a
        · rfl
        · exact absurd hq hp
      rw [List.filter_cons, List.filter_cons, hp2]
      simp only [Bool.not_false, if_true, if_false, List.cons_append]
      exact List.Perm.cons a ih

theorem nodup_concat_of_not_mem {α : Type} (l : List α) (a : α)
    (hnd : l.Nodup) (hm : a ∉ l) : (l ++ [a]).Nodup :=
  ((List.perm_append_singleton a l).nodup_iff).mpr (List.nodup_cons.mpr ⟨hm, hnd⟩)

theorem restore_setAttrList (l : List (String × String)) (k v : String) :
    restoreAttrList (setAttrList l k v) k (lookupAttr l k) = l := by
  induction l with
  | nil =>
    simp [lookupAttr, setAttrList, restoreAttrList, unsetAttrList]
  | cons p t ih =>
    obtain ⟨k1, v1⟩ := p
    by_cases hk : (k1 == k) = true
    · simp [lookupAttr, setAttrList, restoreAttrList, hk]
    · have hk2 : (k1 == k) = false := by
        cases hq : (k1 == k)
        · rfl
        · exact absurd hq hk
      cases hl : lookupAttr t k with
      | some w =>
        rw [hl] at ih
        simp only [restoreAttrList] at ih
        simp [lookupAttr, setAttrList, restoreAttrList, hk2, hl, ih]
      | none =>
        rw [hl] at ih
        simp only [restoreAttrList, unsetAttrList, bne] at ih
        simp [lookupAttr, setAttrList, restoreAttrList, unsetAttrList,
          List.filter_cons, bne, hk2, hl, ih]

theorem any_id_ne {α : Type} (l : List α) (f : α → Nat) (x : Nat)
    (h : ¬ (l.any (fun m => f m == x) = true)) : ∀ m ∈ l, f m ≠ x := by
  intro m hm he
  exact h (List.any_eq_true.mpr ⟨m, hm, by simp [he]⟩)

theorem not_mem_map_id {α : Type} (l : List α) (f : α → Nat) (x : Nat)
    (h : ∀ m ∈ l, f m ≠ x) : x ∉ l.map f := by
  intro hx
  rcases List.mem_map.mp hx with ⟨m, hm, he⟩
  exact h m hm he

theorem filter_id_bne_eq {α : Type} (l : List α) (f : α → Nat) (x : Nat)
    (h : ∀ m ∈ l, f m ≠ x) : l.filter (fun m => f m != x) = l := by
  apply List.filter_eq_self.mpr
  intro m hm
  simp only [bne_iff_ne, ne_eq]
  exact h m hm

theorem touches_false_of_not_mem (e : Edge) (ids : List Nat) (x : Nat)
    (h1 : e.src_node ∈ ids) (h2 : e.dst_node ∈ ids) (hx : x ∉ ids) :
    e.touches x = false := by
  unfold Edge.touches
  have hs : (e.src_node == x) = false := by
    simp only [beq_eq_false_iff_ne, ne_eq]
    intro he
    exact hx (he ▸ h1)
  have hd : (e.dst_node == x) = false := by
    simp only [beq_eq_false_iff_ne, ne_eq]
    intro he
    exact hx (he ▸ h2)
  rw [hs, hd]
  rfl

theorem filter_not_touches_eq (edges : List Edge) (ids : List Nat) (x : Nat)
    (hres : ∀ e ∈ edges, e.src_node ∈ ids ∧ e.dst_node ∈ ids) (hx : x ∉ ids) :
    edges.filter (fun e => !(e.touches x)) = edges := by
  apply List.filter_eq_self.mpr
  intro e he
  rw [touches_false_of_not_mem e ids x (hres e he).1 (hres e he).2 hx]
  rfl

theorem mem_ids_filter (nodes : List Node) (x nid : Nat)
    (hx : x ∈ nodes.map (fun m => m.id)) (hne : x ≠ nid) :
    x ∈ (nodes.filter (fun m => m.id != nid)).map (fun m => m.id) := by
  rcases List.mem_map.mp hx with ⟨m, hm, hmx⟩
  apply List.mem_map.mpr
  refine ⟨m, ?_, hmx⟩
  apply List.mem_filter.mpr
  refine ⟨hm, ?_⟩
  simp only [bne_iff_ne, ne_eq]
  rw [hmx]
  exact hne

theorem addNode_ok (g : Graph) (n : Node) (g2 : Graph) (hwf : g.WF)
    (h : g.addNode n = .ok g2) :
    g2.WF ∧ Command.invert (Command.nodeAdded n) g2 = g := by
  obtain ⟨hwf1, hwf2, hwf3⟩ := hwf
  unfold Graph.addNode at h
  split at h
  · exact Except.noConfusion h
  · next hdup =>
    injection h with h
    subst h
    have hfresh := any_id_ne g.nodes (fun m => m.id) n.id hdup
    have hnid : n.id ∉ g.nodes.map (fun m => m.id) := not_mem_map_id _ _ _ hfresh
    refine ⟨⟨?_, hwf2, ?_⟩, ?_⟩
    · rw [List.map_append, List.map_cons, List.map_nil]
      exact nodup_concat_of_not_mem _ _ hwf1 hnid
    · intro e he
      obtain ⟨h1, h2⟩ := hwf3 e he
      unfold Graph.nodeIds at h1 h2 ⊢
      rw [List.map_append]
      exact ⟨List.mem_append_left _ h1, List.mem_append_left _ h2⟩
    · show Graph.mk ((g.nodes ++ [n]).filter (fun m => m.id != n.id))
        (g.edges.filter (fun e => !(e.touches n.id))) = g
      rw [List.filter_append, filter_id_bne_eq g.nodes (fun m => m.id) n.id hfresh]
      have hn1 : ([n].filter (fun m => m.id != n.id)) = [] := by simp
      rw [hn1, List.append_nil,
        filter_not_touches_eq g.edges g.nodeIds n.id hwf3
          (by unfold Graph.nodeIds; exact hnid)]

theorem removeNode_ok (g : Graph) (nid : Nat) (g2 : Graph) (n : Node)
    (ces : List Edge) (hwf : g.WF) (h : g.removeNode nid = .ok (g2, n, ces)) :
    g2.WF ∧ g2.nodes = g.nodes.filter (fun m => m.id != nid) ∧
    g2.edges = g.edges.filter (fun e => !(e.touches nid)) ∧
    ces = g.edges.filter (fun e => e.touches nid) ∧
    ((Command.invert (Command.nodeRemoved n ces) g2).nodes.Perm g.nodes) ∧
    ((Command.invert (Command.nodeRemoved n ces) g2).edges.Perm g.edges) := by
  obtain ⟨hwf1, hwf2, hwf3⟩ := hwf
  unfold Graph.removeNode at h
  split at h
  · exact Except.noConfusion h
  · next n0 hfind =>
    injection h with h
    injection h with hg h
    injection h with hn hc
    subst hg
    subst hn
    subst hc
    unfold Graph.findNode at hfind
    have hmem := List.mem_of_find?_eq_some hfind
    have hid : n0.id = nid := by simpa using List.find?_some hfind
    refine ⟨⟨?_, ?_, ?_⟩, rfl, rfl, rfl, ?_, ?_⟩
    · exact hwf1.sublist ((List.filter_sublist _).map _)
    · exact hwf2.sublist ((List.filter_sublist _).map _)
    · intro e he
      obtain ⟨heg, htf⟩ := List.mem_filter.mp he
      have ht : e.touches nid = false := by simpa using htf
      have hts : (e.src_node == nid) = false ∧ (e.dst_node == nid) = false := by
        unfold Edge.touches at ht
        exact Bool.or_eq_false_iff.mp ht
      obtain ⟨hs, hd⟩ := hwf3 e heg
      unfold Graph.nodeIds at hs hd ⊢
      constructor
      · exact mem_ids_filter g.nodes _ nid hs (by simpa using hts.1)
      · exact mem_ids_filter g.nodes _ nid hd (by simpa using hts.2)
    · show ((g.nodes.filter (fun m => m.id != nid)) ++ [n0]).Perm g.nodes
      have hperm2 : g.nodes.Perm (n0 :: g.nodes.filter (fun x => x.id != nid)) := by
        have hraw := perm_cons_filter_of_mem (fun m => m.id) g.nodes n0 hmem hwf1
        simpa [hid] using hraw
      exact (List.perm_append_singleton n0 _).trans hperm2.symm
    · show ((g.edges.filter (fun e => !(e.touches nid)))
          ++ (g.edges.filter (fun e => e.touches nid))).Perm g.edges
      exact filter_not_append_filter_perm (fun e => e.touches nid) g.edges

theorem resolveConn_node_mem (g : Graph) (r : ConnRef) (c : Connection)
    (h : g.resolveConn r = some c) : r.node ∈ g.nodeIds := by
  unfold Graph.resolveConn at h
  split at h
  · exact Option.noConfusion h
  · next nd hfind =>
    unfold Graph.findNode at hfind
    have hm := List.mem_of_find?_eq_some hfind
    have hidb : nd.id = r.node := by simpa using List.find?_some hfind
    unfold Graph.nodeIds
    exact List.mem_map.mpr ⟨nd, hm, hidb⟩

theorem addEdge_ok (g : Graph) (e : Edge) (g2 : Graph) (hwf : g.WF)
    (h : g.addEdge e = .ok g2) :
    g2.WF ∧ Command.invert (Command.edgeAdded e) g2 = g := by
  obtain ⟨hwf1, hwf2, hwf3⟩ := hwf
  unfold Graph.addEdge at h
  split at h
  · exact Except.noConfusion h
  · next hdup =>
    split at h
    · exact Except.noConfusion h
    · exact Except.noConfusion h
    · next cs cd hrs hrd =>
      split at h
      · exact Except.noConfusion h
      · split at h
        · exact Except.noConfusion h
        · injection h with h
          subst h
          have hfresh := any_id_ne g.edges (fun e2 => e2.id) e.id hdup
          have heid : e.id ∉ g.edges.map (fun e2 => e2.id) := not_mem_map_id _ _ _ hfresh
          refine ⟨⟨hwf1, ?_, ?_⟩, ?_⟩
          · rw [List.map_append, List.map_cons, List.map_nil]
            exact nodup_concat_of_not_mem _ _ hwf2 heid
          · intro e2 he2
            rcases List.mem_append.mp he2 with hold | hnew
            · exact hwf3 e2 hold
            · have he2e : e2 = e := by simpa using hnew
              subst he2e
              exact ⟨resolveConn_node_mem g ⟨e2.src_node, e2.src_conn⟩ cs hrs,
                resolveConn_node_mem g ⟨e2.dst_node, e2.dst_conn⟩ cd hrd⟩
          · show Graph.mk g.nodes ((g.edges ++ [e]).filter (fun e2 => e2.id != e.id)) = g
            rw [List.filter_append, filter_id_bne_eq g.edges (fun e2 => e2.id) e.id hfresh]
            have he1 : ([e].filter (fun e2 => e2.id != e.id)) = [] := by simp
            rw [he1, List.append_nil]

theorem removeEdge_ok (g : Graph) (eid : Nat) (g2 : Graph) (e : Edge) (hwf : g.WF)
    (h : g.removeEdge eid = .ok (g2, e)) :
    g2.WF ∧ ((Command.invert (Command.edgeRemoved e) g2).nodes.Perm g.nodes) ∧
    ((Command.invert (Command.edgeRemoved e) g2).edges.Perm g.edges) := by
  obtain ⟨hwf1, hwf2, hwf3⟩ := hwf
  unfold Graph.removeEdge at h
  split at h
  · exact Except.noConfusion h
  · next e0 hfind =>
    injection h with h
    injection h with hg he
    subst hg
    subst he
    have hmem := List.mem_of_find?_eq_some hfind
    have hid : e0.id = eid := by simpa using List.find?_some hfind
    refine ⟨⟨hwf1, ?_, ?_⟩, List.Perm.refl _, ?_⟩
    · exact hwf2.sublist ((List.filter_sublist _).map _)
    · intro e2 he2
      exact hwf3 e2 (List.mem_of_mem_filter he2)
    · show ((g.edges.filter (fun e2 => e2.id != eid)) ++ [e0]).Perm g.edges
      have hperm2 : g.edges.Perm (e0 :: g.edges.filter (fun x => x.id != eid)) := by
        have hraw := perm_cons_filter_of_mem (fun x => x.id) g.edges e0 hmem hwf2
        simpa [hid] using hraw
      exact (List.perm_append_singleton e0 _).trans hperm2.symm

theorem setAttribute_ok (g : Graph) (nid : Nat) (k v : String) (g2 : Graph)
    (old : Option String) (hwf : g.WF) (h : g.setAttribute nid k v = .ok (g2, old)) :
    g2.WF ∧ Command.invert (Command.attrChanged nid k old v) g2 = g := by
  obtain ⟨hwf1, hwf2, hwf3⟩ := hwf
  unfold Graph.setAttribute at h
  split at h
  · exact Except.noConfusion h
  · next n0 hfind =>
    injection h with h
    injection h with hg ho
    subst hg
    subst ho
    unfold Graph.findNode at hfind
    have hmem := List.mem_of_find?_eq_some hfind
    have hid : n0.id = nid := by simpa using List.find?_some hfind
    have hids : (g.nodes.map (fun m =>
        if (m.id == nid) = true then { m with attributes := setAttrList m.attributes k v }
        else m)).map (fun m => m.id) = g.nodes.map (fun m => m.id) := by
      apply map_comp_eq_of_mem
      intro m _
      by_cases hm : (m.id == nid) = true
      · rw [if_pos hm]
      · rw [if_neg hm]
    refine ⟨⟨?_, hwf2, ?_⟩, ?_⟩
    · rw [hids]
      exact hwf1
    · intro e he
      obtain ⟨hs, hd⟩ := hwf3 e he
      unfold Graph.nodeIds at hs hd ⊢
      rw [hids]
      exact ⟨hs, hd⟩
    · simp only [Command.invert]
      rw [List.map_map]
      have hpoint : ∀ m ∈ g.nodes,
          ((fun m2 => if (m2.id == nid) = true then
              { m2 with attributes := restoreAttrList m2.attributes k (lookupAttr n0.attributes k) }
            else m2) ∘ (fun m2 => if (m2.id == nid) = true then
              { m2 with attributes := setAttrList m2.attributes k v }
            else m2)) m = m := by
        intro m hmm
        by_cases hm : (m.id == nid) = true
        · have hmn : m = n0 :=
            List.inj_on_of_nodup_map hwf1 hmm hmem (by rw [beq_iff_eq.mp hm, hid])
          subst hmn
          simp [Function.comp, hm, restore_setAttrList]
        · simp [Function.comp, hm]
      rw [map_id_of_mem g.nodes _ hpoint]

/-- Inverting a Command is congruent with respect to permutation of the node
and edge lists. -/
theorem invert_perm (c : Command) (g h : Graph)
    (hn : g.nodes.Perm h.nodes) (he : g.edges.Perm h.edges) :
    ((c.invert g).nodes.Perm (c.invert h).nodes) ∧
    ((c.invert g).edges.Perm (c.invert h).edges) := by
  cases c with
  | nodeAdded n => exact ⟨hn.filter _, he.filter _⟩
  | nodeRemoved n ces => exact ⟨hn.append_right _, he.append_right _⟩
  | edgeAdded e => exact ⟨hn, he.filter _⟩
  | edgeRemoved e => exact ⟨hn, he.append_right _⟩
  | attrChanged nid k before after => exact ⟨hn.map _, he⟩

/-- A successfully handled intent preserves well-formedness, pushes exactly
one Command, and that Command's inverse restores the prior graph up to
permutation of the node and edge lists. -/
theorem handle_ok (s : SceneState) (i : Intent) (s2 : SceneState) (c : Command)
    (hwf : s.graph.WF) (h : SceneHandler.handle s i = (s2, .ok c)) :
    s2.graph.WF ∧ s2.stack = s.stack ++ [c] ∧
    ((Command.invert c s2.graph).nodes.Perm s.graph.nodes) ∧
    ((Command.invert c s2.graph).edges.Perm s.graph.edges) := by
  cases i with
  | addNode n =>
    simp only [SceneHandler.handle] at h
    split at h
    · injection h with h1 h2
      exact Except.noConfusion h2
    · next g hok =>
      injection h with h1 h2
      injection h2 with h2
      subst h1
      subst h2
      obtain ⟨hwf2, hinv⟩ := addNode_ok s.graph n g hwf hok
      refine ⟨hwf2, rfl, ?_, ?_⟩
      · show ((Command.invert (Command.nodeAdded n) g).nodes).Perm s.graph.nodes
        rw [hinv]
      · show ((Command.invert (Command.nodeAdded n) g).edges).Perm s.graph.edges
        rw [hinv]
  | deleteNode nid =>
    simp only [SceneHandler.handle] at h
    split at h
    · injection h with h1 h2
      exact Except.noConfusion h2
    · next g n ces hok =>
      injection h with h1 h2
      injection h2 with h2
      subst h1
      subst h2
      obtain ⟨hwf2, _, _, _, hpn, hpe⟩ := removeNode_ok s.graph nid g n ces hwf hok
      exact ⟨hwf2, rfl, hpn, hpe⟩
  | connect a b =>
    simp only [SceneHandler.handle] at h
    split at h
    · injection h with h1 h2
      exact Except.noConfusion h2
    · injection h with h1 h2
      exact Except.noConfusion h2
    · next ca cb hra hrb =>
      split at h
      · injection h with h1 h2
        exact Except.noConfusion h2
      · split at h
        · injection h with h1 h2
          exact Except.noConfusion h2
        · next g hok =>
          injection h with h1 h2
          injection h2 with h2
          subst h1
          subst h2
          obtain ⟨hwf2, hinv⟩ := addEdge_ok s.graph _ g hwf hok
          refine ⟨hwf2, rfl, ?_, ?_⟩
          · show ((Command.invert (Command.edgeAdded (orientEdge s.graph ca a b)) g).nodes).Perm
              s.graph.nodes
            rw [hinv]
          · show ((Command.invert (Command.edgeAdded (orientEdge s.graph ca a b)) g).edges).Perm
              s.graph.edges
            rw [hinv]
  | disconnect eid =>
    simp only [SceneHandler.handle] at h
    split at h
    · injection h with h1 h2
      exact Except.noConfusion h2
    · next g edge hok =>
      injection h with h1 h2
      injection h2 with h2
      subst h1
      subst h2
      obtain ⟨hwf2, hpn, hpe⟩ := removeEdge_ok s.graph eid g edge hwf hok
      exact ⟨hwf2, rfl, hpn, hpe⟩
  | editAttr nid k v =>
    simp only [SceneHandler.handle] at h
    split at h
    · injection h with h1 h2
      exact Except.noConfusion h2
    · next g old hok =>
      injection h with h1 h2
      injection h2 with h2
      subst h1
      subst h2
      obtain ⟨hwf2, hinv⟩ := setAttribute_ok s.graph nid k v g old hwf hok
      refine ⟨hwf2, rfl, ?_, ?_⟩
      · show ((Command.invert (Command.attrChanged nid k old v) g).nodes).Perm s.graph.nodes
        rw [hinv]
      · show ((Command.invert (Command.attrChanged nid k old v) g).edges).Perm s.graph.edges
        rw [hinv]

/-- `undo()` on a stack ending in `c` pops exactly `c`. -/
theorem undo_concat (s : SceneState) (st : List Command) (c : Command)
    (h : s.stack = st ++ [c]) :
    s.undo = { graph := c.invert s.graph, stack := st, redo := s.redo ++ [c],
               nodesModel := refreshNodesModel (c.invert s.graph),
               edgesModel := refreshEdgesModel (c.invert s.graph),
               tableModel := refreshTableModel (c.invert s.graph) } := by
  unfold SceneState.undo
  rw [h, List.getLast?_concat, List.dropLast_concat]

/-- Helper for C3: undoing as many times as intents were handled restores the
stack and restores the graph up to permutation of the node and edge lists. -/
theorem runIntents_undo (intents : List Intent) :
    ∀ s s2 : SceneState, s.graph.WF → runIntents s intents = some s2 →
      (undoN intents.length s2).stack = s.stack ∧
      ((undoN intents.length s2).graph.nodes.Perm s.graph.nodes) ∧
      ((undoN intents.length s2).graph.edges.Perm s.graph.edges) := by
  induction intents with
  | nil =>
    intro s s2 hwf hrun
    have hs : s = s2 := by
      simpa [runIntents] using hrun
    subst hs
    exact ⟨rfl, List.Perm.refl _, List.Perm.refl _⟩
  | cons i rest ih =>
    intro s s2 hwf hrun
    rcases hh : SceneHandler.handle s i with ⟨s1, res⟩
    unfold runIntents at hrun
    rw [hh] at hrun
    cases res with
    | error e => exact Option.noConfusion hrun
    | ok c =>
      obtain ⟨hwf1, hstack1, hpn, hpe⟩ := handle_ok s i s1 c hwf hh
      obtain ⟨ihs, ihn, ihe⟩ := ih s1 s2 hwf1 hrun
      have hstack2 : (undoN rest.length s2).stack = s.stack ++ [c] := by
        rw [ihs, hstack1]
      have hu := undo_concat (undoN rest.length s2) s.stack c hstack2
      have hcong := invert_perm c (undoN rest.length s2).graph s1.graph ihn ihe
      refine ⟨?_, ?_, ?_⟩
      · show ((undoN rest.length s2).undo).stack = s.stack
        rw [hu]
      · show (((undoN rest.length s2).undo).graph.nodes).Perm s.graph.nodes
        rw [hu]
        exact hcong.1.trans hpn
      · show (((undoN rest.length s2).undo).graph.edges).Perm s.graph.edges
        rw [hu]
        exact hcong.2.trans hpe

/-- C3: for every well-formed starting state and every sequence of N user
mutations each handled successfully (and hence pushed as a Command), calling
`undo()` N times restores the Graph Model to exactly its pre-sequence state:
the same node set and edge set — nodes carry their attribute maps, so all
attribute values equal their prior values as well. -/
theorem undo_restores_graph (s : SceneState) (muts : List Intent)
    (s2 : SceneState) (hwf : s.graph.WF) (hrun : runIntents s muts = some s2) :
    ((undoN muts.length s2).graph.nodes.Perm s.graph.nodes) ∧
    ((undoN muts.length s2).graph.edges.Perm s.graph.edges) :=
  ⟨(runIntents_undo muts s s2 hwf hrun).2.1, (runIntents_undo muts s s2 hwf hrun).2.2⟩

theorem undo_restores_graph_witness :
    (sceneOf (Graph.mk [] [])).graph.WF ∧
    runIntents (sceneOf (Graph.mk [] [])) exIntents = some exScene ∧
    (((undoN exIntents.length exScene).graph.nodes.Perm
        (sceneOf (Graph.mk [] [])).graph.nodes) ∧
     ((undoN exIntents.length exScene).graph.edges.Perm
        (sceneOf (Graph.mk [] [])).graph.edges)) :=
  ⟨by decide, by decide,
   undo_restores_graph (sceneOf (Graph.mk [] [])) exIntents exScene
     (by decide) (by decide)⟩

/-- C6: handling a connect-intent between two Connections that both resolve
to output-direction Connections fails with the typed error
IncompatibleDirection and returns the state unchanged — the same Graph
Model, the same Command Stack, and all three view models untouched. -/
theorem connect_two_outputs_rejected (s : SceneState) (a b : ConnRef)
    (ca cb : Connection)
    (ha : s.graph.resolveConn a = some ca) (hb : s.graph.resolveConn b = some cb)
    (hda : ca.direction = Direction.output) (hdb : cb.direction = Direction.output) :
    SceneHandler.handle s (Intent.connect a b)
      = (s, Except.error GraphError.incompatibleDirection) := by
  simp [SceneHandler.handle, ha, hb, hda, hdb]

theorem connect_two_outputs_rejected_witness :
    exSceneOutputs.graph.resolveConn ⟨1, "out1"⟩
      = some ⟨"out1", Direction.output⟩ ∧
    exSceneOutputs.graph.resolveConn ⟨3, "out1"⟩
      = some ⟨"out1", Direction.output⟩ ∧
    SceneHandler.handle exSceneOutputs (Intent.connect ⟨1, "out1"⟩ ⟨3, "out1"⟩)
      = (exSceneOutputs, Except.error GraphError.incompatibleDirection) :=
  ⟨by decide, by decide,
   connect_two_outputs_rejected exSceneOutputs ⟨1, "out1"⟩ ⟨3, "out1"⟩
     ⟨"out1", Direction.output⟩ ⟨"out1", Direction.output⟩
     (by decide) (by decide) rfl rfl⟩

/-- C7: for every well-formed state and every Node, a successfully handled
delete-node intent removes that node, deletes exactly the Edges touching it
and no others, pushes the whole cascade as one single Command, and a single
`undo()` restores the stack and the full prior graph — the Node and all of
its cascaded Edges. -/
theorem removeNode_cascade_one_undo (s : SceneState) (nid : Nat)
    (s2 : SceneState) (c : Command) (hwf : s.graph.WF)
    (h : SceneHandler.handle s (Intent.deleteNode nid) = (s2, .ok c)) :
    s2.graph.nodes = s.graph.nodes.filter (fun m => m.id != nid) ∧
    (∀ e, e ∈ s2.graph.edges ↔ (e ∈ s.graph.edges ∧ e.touches nid = false)) ∧
    s2.stack = s.stack ++ [c] ∧
    (s2.undo).stack = s.stack ∧
    ((s2.undo).graph.nodes.Perm s.graph.nodes) ∧
    ((s2.undo).graph.edges.Perm s.graph.edges) := by
  simp only [SceneHandler.handle] at h
  split at h
  · injection h with h1 h2
    exact Except.noConfusion h2
  · next g n ces hok =>
    injection h with h1 h2
    injection h2 with h2
    subst h1
    subst h2
    obtain ⟨hwf2, hnodes, hedges, hces, hpn, hpe⟩ :=
      removeNode_ok s.graph nid g n ces hwf hok
    have hu := undo_concat (SceneState.commit s g (Command.nodeRemoved n ces))
      s.stack (Command.nodeRemoved n ces) rfl
    refine ⟨hnodes, ?_, rfl, ?_, ?_, ?_⟩
    · intro e
      rw [show (SceneState.commit s g (Command.nodeRemoved n ces)).graph = g from rfl,
        hedges]
      constructor
      · intro hme
        obtain ⟨hm1, hm2⟩ := List.mem_filter.mp hme
        exact ⟨hm1, by simpa using hm2⟩
      · intro hme
        exact List.mem_filter.mpr ⟨hme.1, by simp [hme.2]⟩
    · rw [hu]
    · rw [hu]
      exact hpn
    · rw [hu]
      exact hpe

theorem removeNode_cascade_one_undo_witness :
    (sceneOf exGraph7).graph.WF ∧
    SceneHandler.handle (sceneOf exGraph7) (Intent.deleteNode 1)
      = (exScene7, Except.ok exCmd7) ∧
    (exScene7.graph.nodes
        = (sceneOf exGraph7).graph.nodes.filter (fun m => m.id != 1) ∧
     (∀ e, e ∈ exScene7.graph.edges ↔
        (e ∈ (sceneOf exGraph7).graph.edges ∧ e.touches 1 = false)) ∧
     exScene7.stack = (sceneOf exGraph7).stack ++ [exCmd7] ∧
     (exScene7.undo).stack = (sceneOf exGraph7).stack ∧
     ((exScene7.undo).graph.nodes.Perm (sceneOf exGraph7).graph.nodes) ∧
     ((exScene7.undo).graph.edges.Perm (sceneOf exGraph7).graph.edges)) :=
  ⟨by decide, by decide,
   removeNode_cascade_one_undo (sceneOf exGraph7) 1 exScene7 exCmd7
     (by decide) (by decide)⟩
